import Mathlib

/-!
Verification of the pymoldflow core decoders against their specification.

This file gives a shallow embedding of the relevant parts of
`pymoldflow/data_io.py` and `pymoldflow/studyrlt.py`:

* `PatranMesh` (reading points/cells, `init_mesh`, `remove_free_points`,
  `scale`, `average_point_to_cell`);
* `read_moldflow_xml` (metadata, value blocks, sentinel masking, time axis);
* the time-selection rule of `convert_to_time_series_xdmf` (`_func_at`);
* the field projection of `MoldflowResultsExporter._process_single_result`
  and `_process_time_series_result` (6-component reordering).

Modelling conventions:
* Python floats are modelled by `ℚ`; the float NaN ("not available") is
  modelled by `none : Option ℚ`.
* A Python exception that escapes a function is modelled by `Except.error`
  carrying a `PyErr`; a normal return is `Except.ok`.
* Python dicts keyed by integers are modelled by association lists in
  insertion order, with in-place overwrite on key collision (`dictInsert`).
* The text-level regex matching of the Patran reader is modelled one level
  up: the input is a list of already-recognized records (`PatRecord`);
  text that matches no record pattern is `PatRecord.garbage` and is
  skipped, exactly as non-matching text is skipped by `re.findall`.
-/

/-- Python exceptions that the modelled code can raise. -/
inductive PyErr where
  | indexError
  | keyError
  | valueError
  | assertionError
deriving DecidableEq, Repr

/-- One record recognized (or not) in a Patran mesh file.

* `point extId coords` models a two-line point record (tag "1"): external
  point id and three coordinates.
* `cell extId typecode numPoints conn` models a three-line cell record
  (tag "2"): external cell id, Patran type code, the declared vertex
  count (second field of the header line) and the external point ids
  found on the connectivity line.
* `garbage` models text matched by neither regex pattern. -/
inductive PatRecord where
  | point (extId : Int) (coords : ℚ × ℚ × ℚ)
  | cell (extId : Int) (typecode : Nat) (numPoints : Nat) (conn : List Int)
  | garbage
deriving DecidableEq

/-- One entry of the `self.cells` / `self.cellsID` dicts: the meshio cell
type name together with the index-aligned external ids and connectivity
rows (internal point indices). -/
structure CellBlock where
  ctype : String
  cellsID : List Int
  conn : List (List Nat)
deriving DecidableEq

/-- The attributes set by `PatranMesh.read`: `pointsID` (external id →
internal index, insertion-ordered dict), `points`, the cell dict (as
insertion-ordered blocks) and the empty data dicts. -/
structure RawMesh where
  pointsID : List (Int × Nat)
  points : List (ℚ × ℚ × ℚ)
  cellBlocks : List CellBlock
  point_data : List (String × List ℚ)
  cell_data : List (String × List ℚ)
deriving DecidableEq

/-- The additional attributes set by `PatranMesh.init_mesh`. -/
structure Mesh extends RawMesh where
  ncells : Nat
  npoints : Nat
deriving DecidableEq

/-- `d[k] = v` on an insertion-ordered dict: overwrite in place if the key
exists, else append. -/
def dictInsert (d : List (Int × Nat)) (k : Int) (v : Nat) : List (Int × Nat) :=
  if d.any (fun p => p.1 = k) then d.map (fun p => if p.1 = k then (k, v) else p)
  else d ++ [(k, v)]

/-- `d[k]` on an insertion-ordered dict, `none` modelling `KeyError`. -/
def dictLookup (d : List (Int × Nat)) (k : Int) : Option Nat :=
  (d.find? (fun p => p.1 = k)).map (fun p => p.2)

/-- The point-reading loop of `PatranMesh.read`: for each point record,
`self.pointsID[extId] = i` (with `i` the running point count) and
`self.points.append(coords)`. Non-point records are not matched by the
point regex and leave the state unchanged. -/
def readPoints : List PatRecord → List (Int × Nat) × List (ℚ × ℚ × ℚ) →
    List (Int × Nat) × List (ℚ × ℚ × ℚ)
  | [], st => st
  | .point e c :: rest, (pid, pts) =>
      readPoints rest (dictInsert pid e pts.length, pts ++ [c])
  | _ :: rest, st => readPoints rest st

/-- `get_cell`: map each external point id on the connectivity line through
`pointsID`; a missing key raises `KeyError`. -/
def lookupConn (pid : List (Int × Nat)) : List Int → Except PyErr (List Nat)
  | [] => .ok []
  | e :: rest =>
      match dictLookup pid e with
      | some v => (lookupConn pid rest).map (fun c => v :: c)
      | none => .error .keyError

/-- Append one parsed cell to the `cells`/`cellsID` dicts: extend the block
of its meshio type if present, else create a new block (dict insertion
order). -/
def addToBlocks (blocks : List CellBlock) (name : String) (cid : Int)
    (c : List Nat) : List CellBlock :=
  if blocks.any (fun b => b.ctype = name) then
    blocks.map (fun b =>
      if b.ctype = name then
        { b with cellsID := b.cellsID ++ [cid], conn := b.conn ++ [c] }
      else b)
  else blocks ++ [⟨name, [cid], [c]⟩]

/-- The fixed `meshio_to_patran_type` table. -/
def patranCode (s : String) : Option Nat :=
  if s = "line" then some 2
  else if s = "triangle" then some 3
  else if s = "quad" then some 4
  else if s = "tetra" then some 5
  else if s = "hexahedron" then some 8
  else none

/-- The `patran_to_meshio_type` dict built from the requested cell types:
the meshio name of a Patran type code, `none` if the code was not
requested. -/
def patranToMeshio (kinds : List String) (c : Nat) : Option String :=
  kinds.find? (fun s => patranCode s = some c)

/-- The cell-reading loop of `PatranMesh.read`: cell records whose type
code is not in the requested set are skipped (`continue`); otherwise the
connectivity line is truncated to the declared vertex count and mapped
through `pointsID` (raising `KeyError` on an unknown point id), and the
cell is appended to the dicts. Non-cell records are not matched by the
cell regex. -/
def readCells (kinds : List String) (pid : List (Int × Nat)) :
    List PatRecord → List CellBlock → Except PyErr (List CellBlock)
  | [], blocks => .ok blocks
  | .cell cid code np conn :: rest, blocks =>
      match patranToMeshio kinds code with
      | none => readCells kinds pid rest blocks
      | some name =>
          match lookupConn pid (conn.take np) with
          | .ok c => readCells kinds pid rest (addToBlocks blocks name cid c)
          | .error e => .error e
  | _ :: rest, blocks => readCells kinds pid rest blocks

/-- `PatranMesh.read`: `assert len(read_celltypes) > 0`, the
`meshio_to_patran_type[celltype]` lookups (a `KeyError` on an unknown
name), then the point pass followed by the cell pass. -/
def patranRead (recs : List PatRecord) (kinds : List String) :
    Except PyErr RawMesh :=
  if kinds = [] then .error .assertionError
  else if kinds.any (fun s => (patranCode s).isNone) then .error .keyError
  else
    let st := readPoints recs ([], [])
    (readCells kinds st.1 recs []).map (fun blocks =>
      ⟨st.1, st.2, blocks, [], []⟩)

/-- The index shift of `remove_free_points`: each retained connectivity
entry `v` is decremented by the number of free points strictly below it
(`diff[np.argwhere(all_cells_flat > free_point)] += 1`). -/
def remapIdx (free : List Nat) (v : Nat) : Nat :=
  v - free.countP (fun f => decide (f < v))

/-- `np.delete(l, free)`: drop the entries whose position is listed in
`free`. -/
def removeIdxs (l : List α) (free : List Nat) : List α :=
  ((l.enum.filter (fun p => decide (p.1 ∉ free))).map (fun p => p.2))

/-- `PatranMesh.remove_free_points`: compute the flattened connectivity,
the sorted list of unreferenced point indices, and (unless it is empty)
delete those rows from `points` and every `point_data` array, shift all
connectivity entries, and rebuild `pointsID` by deleting the same
positions from its key list and re-pairing with `0, 1, 2, ...`.

Known deviation: the source flattens with
`np.concatenate([vals for vals in self.cells.values()]).flatten()`,
which concatenates the per-kind 2-D arrays first and hence raises an
uncaught `ValueError` whenever two retained cell kinds have different
row widths (e.g. triangle plus tetra).  This model flattens each block
before concatenating and therefore also covers those mixed-arity states;
on every state the source handles without crashing the two agree, and
all concrete inputs used below keep a uniform arity. -/
def remove_free_points (r : RawMesh) : RawMesh :=
  let flat := (r.cellBlocks.map (fun b => b.conn.flatten)).flatten
  let free := (List.range r.points.length).filter (fun i => decide (i ∉ flat))
  if free.isEmpty then r
  else
    let keys := removeIdxs (r.pointsID.map (fun p => p.1)) free
    { pointsID := keys.zip (List.range keys.length)
      points := removeIdxs r.points free
      cellBlocks := r.cellBlocks.map (fun b =>
        { b with conn := b.conn.map (fun c => c.map (remapIdx free)) })
      point_data := r.point_data.map (fun p => (p.1, removeIdxs p.2 free))
      cell_data := r.cell_data }

/-- `PatranMesh.init_mesh`: `self.ncells_cumsum[-1]` raises `IndexError`
when no cell block was read (`np.cumsum([])` is empty); otherwise count
the cells, remove free points and record the point count. -/
def init_mesh (r : RawMesh) : Except PyErr Mesh :=
  match r.cellBlocks with
  | [] => .error .indexError
  | _ =>
      let ncells := (r.cellBlocks.map (fun b => b.conn.length)).sum
      let r' := remove_free_points r
      .ok { r' with ncells := ncells, npoints := r'.points.length }

/-- `PatranMesh.__init__`: `read` followed by `init_mesh`. -/
def patranConstruct (recs : List PatRecord) (kinds : List String) :
    Except PyErr Mesh :=
  (patranRead recs kinds).bind init_mesh

/-- `PatranMesh.scale`: `self.points *= factor`. -/
def Mesh.scale (m : Mesh) (factor : ℚ) : Mesh :=
  { m with points := m.points.map (fun p =>
      (p.1 * factor, p.2.1 * factor, p.2.2 * factor)) }

/-- `self.cells["tetra"]` (`[]` models the `KeyError` case, which the
theorems exclude by hypothesis). -/
def tetraConn (m : Mesh) : List (List Nat) :=
  ((m.cellBlocks.find? (fun b => b.ctype = "tetra")).map (fun b => b.conn)).getD []

/-- `np.mean` of a list of rationals. -/
def listMean (xs : List ℚ) : ℚ := xs.sum / (xs.length : ℚ)

/-- `PatranMesh.average_point_to_cell` for one-dimensional data: allocate
`np.zeros(self.ncells)` and overwrite entry `i` with the mean of the data
at the vertices of tetra cell `i`. Entries beyond the tetra cells keep
their zero. (`point_data[cell]` is modelled with a harmless default for
out-of-range indices; the theorems restrict to in-range connectivity.) -/
def average_point_to_cell (m : Mesh) (point_data : List ℚ) : List ℚ :=
  (List.range m.ncells).map (fun i =>
    if h : i < (tetraConn m).length then
      listMean (((tetraConn m).get ⟨i, h⟩).map (fun v => point_data.getD v 0))
    else 0)

/-- The mesh invariants of the specification: every connectivity entry is
a valid index into `points`, every point is referenced by some retained
cell, and the internal ids stored in `pointsID` are exactly
`0, 1, ..., npoints - 1` in order. -/
def meshInvariants (m : Mesh) : Prop :=
  (∀ b ∈ m.cellBlocks, ∀ c ∈ b.conn, ∀ v ∈ c, v < m.points.length)
  ∧ (∀ j < m.points.length, ∃ b ∈ m.cellBlocks, ∃ c ∈ b.conn, j ∈ c)
  ∧ m.pointsID.map (fun p => p.2) = List.range m.points.length

/-! ## `read_moldflow_xml` (pymoldflow/data_io.py) -/

/-- One stored value: `id_val[identifier] = array[0]` when the masked
array has a single entry, else the whole array. `none` components model
float NaN. -/
inductive DVal where
  | scalar (x : Option ℚ)
  | vector (xs : List (Option ℚ))
deriving DecidableEq

/-- The `data["val"]` store: a single id → value dict (mesh kind, no time
axis), one dict per time step (mesh kind with time axis), or the non-mesh
array. -/
inductive MFVal where
  | meshSingle (g : List (Int × DVal))
  | meshSteps (gs : List (List (Int × DVal)))
  | nonMesh (vs : List DVal)
deriving DecidableEq

/-- The dict returned by `read_moldflow_xml`.  `time` is `none` when
`data["time"]` was set to Python `None`; inside a present time array,
`none` entries model NaN (a failed sibling lookup). -/
structure MFRecord where
  name : String
  dtype : String
  unit : String
  dim : Nat
  time : Option (List (Option ℚ))
  val : MFVal
deriving DecidableEq

/-- One `Blocks/Block/Data` element of a mesh-kind result: the `Value`
attribute found two siblings before it (`none` when that lookup raises
`AttributeError`/`KeyError`), and its child value elements as
(identifier, parsed `DeptValues` floats). -/
structure MeshBlock where
  timeAttr : Option ℚ
  entries : List (Int × List ℚ)
deriving DecidableEq

/-- One `Blocks/Block/DeptValues` element of a non-mesh result. -/
structure NMBlock where
  timeAttr : Option ℚ
  text : List ℚ
deriving DecidableEq

/-- A successfully parsed result tree: the fixed-path metadata and the two
xpath results (only the one matching the kind is consulted). -/
structure XmlDoc where
  name : String
  dtype : String
  unit : String
  dim : Nat
  meshBlocks : List MeshBlock
  nmBlocks : List NMBlock
deriving DecidableEq

/-- The sentinel mask `array[array > 1e29] = np.nan`. -/
def maskVal (x : ℚ) : Option ℚ := if x > 10 ^ 29 then none else some x

/-- `np.fromstring(text, count=dim)` followed by masking and the
single-entry unwrap (`if len(array) == 1`). -/
def mkDVal (dim : Nat) (txt : List ℚ) : DVal :=
  match (txt.take dim).map maskVal with
  | [x] => .scalar x
  | xs => .vector xs

/-- The id → value dict built from one mesh-kind block. -/
def groupOf (dim : Nat) (b : MeshBlock) : List (Int × DVal) :=
  b.entries.map (fun e => (e.1, mkDVal dim e.2))

/-- A non-mesh block value: `np.fromstring(dataset.text, count=dim)` with
the single-entry unwrap and no masking. -/
def nmVal (dim : Nat) (txt : List ℚ) : DVal :=
  match txt.take dim with
  | [x] => .scalar (some x)
  | xs => .vector (xs.map some)

/-- The body of `read_moldflow_xml` after a successful parse.  For a
mesh-kind record, `only_last_step` keeps only `datasets[-1]` (an
`IndexError` on an empty list); the time axis is `None` when
`nsteps <= 1 or only_last_step`, in which case the loop leaves
`data["val"]` equal to the dict of the last block (or the empty dict if
there is no block).  For a non-mesh record the time array and the value
array are always built, one entry per block. -/
def decodeXml (d : XmlDoc) (ols : Bool) : Except PyErr MFRecord :=
  if d.dtype ≠ "NMDT(Non-mesh data)" then
    if ols then
      match d.meshBlocks.getLast? with
      | none => .error .indexError
      | some b =>
          .ok ⟨d.name, d.dtype, d.unit, d.dim, none,
            .meshSingle (groupOf d.dim b)⟩
    else
      if d.meshBlocks.length ≤ 1 then
        .ok ⟨d.name, d.dtype, d.unit, d.dim, none,
          .meshSingle ((d.meshBlocks.getLast?.map (groupOf d.dim)).getD [])⟩
      else
        .ok ⟨d.name, d.dtype, d.unit, d.dim,
          some (d.meshBlocks.map (fun b => b.timeAttr)),
          .meshSteps (d.meshBlocks.map (groupOf d.dim))⟩
  else
    .ok ⟨d.name, d.dtype, d.unit, d.dim,
      some (d.nmBlocks.map (fun b => b.timeAttr)),
      .nonMesh (d.nmBlocks.map (fun b => nmVal d.dim b.text))⟩

/-- `read_moldflow_xml`: a failed `ET.parse` (modelled by `none`) is
caught and reported as `(False, None)`; a parsed tree is decoded.  An
`Except.error` models a Python exception escaping to the caller. -/
def read_moldflow_xml (input : Option XmlDoc) (ols : Bool) :
    Except PyErr (Bool × Option MFRecord) :=
  match input with
  | none => .ok (false, none)
  | some d => (decodeXml d ols).map (fun r => (true, some r))

/-! ## `convert_to_time_series_xdmf` time selection -/

/-- One `Attribute` element: the function name and the optional time
suffix parsed from `name__time`.  Distinct suffix strings with equal
numeric value are identified with their value. -/
structure Frag where
  func : String
  suffix : Option ℚ

/-- `_f_timestep`: the time suffixes carried by the given function, in
document order. -/
def f_timestep (func_all : List Frag) (f : String) : List ℚ :=
  (func_all.filter (fun g => g.func = f)).filterMap (fun g => g.suffix)

/-- The suffix selected by `_func_at` for a suffixed function (`none` when
the function carries no suffix at all and its single unsuffixed fragment
is reused): the exact match if present, else the greatest suffix strictly
below `t` (`max(..., key=float)`), else `f_ts[0]`. -/
def func_at (func_all : List Frag) (f : String) (t : ℚ) : Option ℚ :=
  if f_timestep func_all f = [] then none
  else if t ∈ f_timestep func_all f then some t
  else
    match (f_timestep func_all f).filter (fun x => decide (x < t)) with
    | [] => (f_timestep func_all f).head?
    | x :: xs => some (xs.foldl max x)

/-! ## Field projection (pymoldflow/studyrlt.py) -/

/-- The fill loop shared by `_process_single_result` and
`_process_time_series_result`: starting from an all-NaN array, write each
value at the position its identifier resolves to; `KeyError` and
`IndexError` are swallowed (`except Exception: pass`), and `List.set`
out of range is likewise a no-op. -/
def project_values (locate : List (Int × Nat))
    (init : List (List (Option ℚ))) (vals : List (Int × List (Option ℚ))) :
    List (List (Option ℚ)) :=
  vals.foldl (fun acc iv =>
    match dictLookup locate iv.1 with
    | some pos => acc.set pos iv.2
    | none => acc) init

/-- `values[:, [0, 1, 2, 3, 5, 4]]` on one row. -/
def reorder6 (r : List (Option ℚ)) : List (Option ℚ) :=
  [r.getD 0 none, r.getD 1 none, r.getD 2 none,
   r.getD 3 none, r.getD 5 none, r.getD 4 none]

/-- `_process_single_result` (array part): `_prepare_data_structure`
allocates `np.full((num, dim), nan)`; the values are filled in, and for
`dim = 6` the columns are permuted. -/
def process_single_result (locate : List (Int × Nat)) (num dim : Nat)
    (vals : List (Int × List (Option ℚ))) : List (List (Option ℚ)) :=
  let values := project_values locate
    (List.replicate num (List.replicate dim none)) vals
  if dim = 6 then values.map reorder6 else values

/-- `_process_time_series_result` (array part): each step starts from a
fresh copy of the all-NaN array, is filled from that step's dict, and for
`dim = 6` gets the same column permutation. -/
def process_time_series_result (locate : List (Int × Nat)) (num dim : Nat)
    (steps : List (List (Int × List (Option ℚ)))) :
    List (List (List (Option ℚ))) :=
  steps.map (fun vals =>
    let values := project_values locate
      (List.replicate num (List.replicate dim none)) vals
    if dim = 6 then values.map reorder6 else values)

/-- The flat component list stored inside a `DVal`. -/
def dvalComponents : DVal → List (Option ℚ)
  | .scalar x => [x]
  | .vector xs => xs

/-! ## Helper lemmas -/

theorem zip_map_snd (l₁ : List α) (l₂ : List β) (h : l₁.length = l₂.length) :
    (l₁.zip l₂).map Prod.snd = l₂ := by
  induction l₁ generalizing l₂ with
  | nil => cases l₂ <;> simp_all
  | cons a t ih =>
    cases l₂ with
    | nil => simp_all
    | cons b t2 => simp_all

theorem foldl_max_mem (x : ℚ) (xs : List ℚ) : xs.foldl max x ∈ x :: xs := by
  induction xs generalizing x with
  | nil => simp
  | cons a t ih =>
    have h := ih (max x a)
    rcases List.mem_cons.mp h with h | h
    · rcases max_choice x a with hc | hc <;> rw [List.foldl_cons, h, hc] <;> simp
    · simp [List.foldl_cons, List.mem_cons.mpr (Or.inr (List.mem_cons.mpr (Or.inr h)))]

theorem le_foldl_max (x : ℚ) (xs : List ℚ) : ∀ y ∈ x :: xs, y ≤ xs.foldl max x := by
  induction xs generalizing x with
  | nil => simp
  | cons a t ih =>
    intro y hy
    rcases List.mem_cons.mp hy with h | h
    · subst h
      exact le_trans (le_max_left y a) (ih (max y a) _ (List.mem_cons_self _ _))
    · rcases List.mem_cons.mp h with h | h
      · subst h
        exact le_trans (le_max_right x y) (ih (max x y) _ (List.mem_cons_self _ _))
      · exact ih (max x a) y (List.mem_cons.mpr (Or.inr h))

/-! ## Claim theorems -/

/-- C10: `PatranMesh.scale(factor)` multiplies every point coordinate by
the factor and leaves every other attribute — `cells`, `cellsID` (the
cell blocks), `pointsID`, `point_data`, `cell_data`, the point count and
the cell counts — unchanged. -/
theorem scale_frame_effect (m : Mesh) (factor : ℚ) :
    (m.scale factor).points =
      m.points.map (fun p => (p.1 * factor, p.2.1 * factor, p.2.2 * factor))
    ∧ (m.scale factor).points.length = m.points.length
    ∧ (m.scale factor).pointsID = m.pointsID
    ∧ (m.scale factor).cellBlocks = m.cellBlocks
    ∧ (m.scale factor).point_data = m.point_data
    ∧ (m.scale factor).cell_data = m.cell_data
    ∧ (m.scale factor).ncells = m.ncells
    ∧ (m.scale factor).npoints = m.npoints :=
  ⟨rfl, by simp [Mesh.scale], rfl, rfl, rfl, rfl, rfl, rfl⟩

/-- C6: a failed XML parse makes `read_moldflow_xml` return `(False, None)`
without raising, and a returned success flag of `False` happens only in
that case (the only reported failure mode). -/
theorem xml_parse_failure_value (ols : Bool) :
    read_moldflow_xml none ols = .ok (false, none)
    ∧ ∀ (input : Option XmlDoc) (res : Bool × Option MFRecord),
        read_moldflow_xml input ols = .ok res → res.1 = false →
        res.2 = none ∧ input = none := by
  refine ⟨rfl, ?_⟩
  intro input res h hfalse
  match input with
  | none =>
    simp only [read_moldflow_xml, Except.ok.injEq] at h
    exact ⟨by rw [← h], rfl⟩
  | some d =>
    exfalso
    cases hdec : decodeXml d ols with
    | ok r =>
      simp only [read_moldflow_xml, hdec, Except.map, Except.ok.injEq] at h
      rw [← h] at hfalse
      simp at hfalse
    | error e => simp [read_moldflow_xml, hdec, Except.map] at h

/-- Witness for C6 at the concrete malformed input. -/
theorem xml_parse_failure_value_witness :
    read_moldflow_xml none false = .ok (false, none)
    ∧ ((false, (none : Option MFRecord)).2 = none
        ∧ (none : Option XmlDoc) = none) :=
  ⟨(xml_parse_failure_value false).1,
   (xml_parse_failure_value false).2 none (false, none) rfl rfl⟩

/-- C2 (counterexample to the claim as stated): the mask tests `v > 1e29`,
not `|v| > 1e29`.  The raw value `-2e30` has magnitude above `1e29` but is
decoded unmasked (not NaN). -/
theorem mask_magnitude_counterexample :
    read_moldflow_xml
        (some ⟨"n", "NDDT(Node data)", "u", 1,
          [⟨none, [(1, [mkRat (-(2 * 10 ^ 30)) 1])]⟩], []⟩) false =
      .ok (true, some ⟨"n", "NDDT(Node data)", "u", 1, none,
        .meshSingle [(1, .scalar (some (mkRat (-(2 * 10 ^ 30)) 1)))]⟩)
    ∧ (10 : ℚ) ^ 29 < |(mkRat (-(2 * 10 ^ 30)) 1 : ℚ)|
    ∧ some (mkRat (-(2 * 10 ^ 30)) 1) ≠ (none : Option ℚ) := by
  refine ⟨rfl, ?_, by simp⟩
  have hv : (mkRat (-(2 * 10 ^ 30)) 1 : ℚ) = -(2 * 10 ^ 30) := by
    rw [Rat.mkRat_eq_div]; norm_num
  rw [hv, abs_of_neg (by norm_num : (-(2 * 10 ^ 30 : ℚ)) < 0)]
  norm_num

/-- C2 (amended): a component parsed from a mesh-kind value block is
masked to "not available" if and only if it exceeds `1e29` (signed
comparison: large negative values are not masked); the boundary is
strictly greater than `1e29`. -/
theorem mask_positive_only (nm ty un : String) (dim : Nat) (tA : Option ℚ)
    (id : Int) (txt : List ℚ) (hty : ty ≠ "NMDT(Non-mesh data)") :
    read_moldflow_xml (some ⟨nm, ty, un, dim, [⟨tA, [(id, txt)]⟩], []⟩) false =
      .ok (true, some ⟨nm, ty, un, dim, none, .meshSingle [(id, mkDVal dim txt)]⟩)
    ∧ dvalComponents (mkDVal dim txt) = (txt.take dim).map maskVal
    ∧ (∀ v : ℚ, maskVal v = none ↔ 10 ^ 29 < v) := by
  refine ⟨?_, ?_, ?_⟩
  · simp [read_moldflow_xml, decodeXml, hty, Except.map, groupOf]
  · unfold mkDVal
    cases h : (txt.take dim).map maskVal with
    | nil => simp [dvalComponents]
    | cons x tl => cases tl <;> simp [dvalComponents]
  · intro v
    simp only [maskVal]
    split <;> simp_all

/-- Witness for C2 (amended): `1.1e30` is masked, `1e29` exactly is not. -/
theorem mask_positive_only_witness :
    read_moldflow_xml
        (some ⟨"n", "NDDT(Node data)", "u", 2,
          [⟨none, [(1, [mkRat (11 * 10 ^ 29) 10, 10 ^ 29])]⟩], []⟩) false =
      .ok (true, some ⟨"n", "NDDT(Node data)", "u", 2, none,
        .meshSingle [(1, mkDVal 2 [mkRat (11 * 10 ^ 29) 10, 10 ^ 29])]⟩)
    ∧ dvalComponents (mkDVal 2 [mkRat (11 * 10 ^ 29) 10, 10 ^ 29]) =
        ([mkRat (11 * 10 ^ 29) 10, (10 : ℚ) ^ 29].take 2).map maskVal
    ∧ (∀ v : ℚ, maskVal v = none ↔ 10 ^ 29 < v)
    ∧ mkDVal 2 [mkRat (11 * 10 ^ 29) 10, 10 ^ 29] =
        .vector [none, some (10 ^ 29)] := by
  have h := mask_positive_only "n" "NDDT(Node data)" "u" 2 none 1
    [mkRat (11 * 10 ^ 29) 10, 10 ^ 29] (by decide)
  exact ⟨h.1, h.2.1, h.2.2, by decide⟩


/-- Shape of `decodeXml` for a mesh-kind record with `only_last_step`. -/
theorem decodeXml_mesh_ols (d : XmlDoc) (hty : d.dtype ≠ "NMDT(Non-mesh data)")
    (b : MeshBlock) (hb : d.meshBlocks.getLast? = some b) :
    decodeXml d true = .ok ⟨d.name, d.dtype, d.unit, d.dim, none,
      .meshSingle (groupOf d.dim b)⟩ := by
  unfold decodeXml
  rw [if_pos hty]
  simp [hb]

/-- Shape of `decodeXml` for a mesh-kind record with at most one block. -/
theorem decodeXml_mesh_single (d : XmlDoc)
    (hty : d.dtype ≠ "NMDT(Non-mesh data)") (h1 : d.meshBlocks.length ≤ 1) :
    decodeXml d false = .ok ⟨d.name, d.dtype, d.unit, d.dim, none,
      .meshSingle ((d.meshBlocks.getLast?.map (groupOf d.dim)).getD [])⟩ := by
  unfold decodeXml
  rw [if_pos hty]
  simp [h1]

/-- Shape of `decodeXml` for a mesh-kind record with several blocks. -/
theorem decodeXml_mesh_multi (d : XmlDoc)
    (hty : d.dtype ≠ "NMDT(Non-mesh data)") (h1 : ¬ d.meshBlocks.length ≤ 1) :
    decodeXml d false = .ok ⟨d.name, d.dtype, d.unit, d.dim,
      some (d.meshBlocks.map (fun b => b.timeAttr)),
      .meshSteps (d.meshBlocks.map (groupOf d.dim))⟩ := by
  unfold decodeXml
  rw [if_pos hty]
  simp [h1]

/-- Shape of `decodeXml` for a non-mesh record. -/
theorem decodeXml_nm (d : XmlDoc) (ols : Bool)
    (hty : d.dtype = "NMDT(Non-mesh data)") :
    decodeXml d ols = .ok ⟨d.name, d.dtype, d.unit, d.dim,
      some (d.nmBlocks.map (fun b => b.timeAttr)),
      .nonMesh (d.nmBlocks.map (fun b => nmVal d.dim b.text))⟩ := by
  unfold decodeXml
  rw [if_neg (by simp [hty])]

/-- Inversion of a successful `read_moldflow_xml` on a parsed tree. -/
theorem read_xml_ok_inv (d : XmlDoc) (ols : Bool) (r : MFRecord)
    (h : read_moldflow_xml (some d) ols = .ok (true, some r)) :
    decodeXml d ols = .ok r := by
  cases hx : decodeXml d ols with
  | ok r' =>
    simp only [read_moldflow_xml, hx, Except.map, Except.ok.injEq,
      Prod.mk.injEq, Option.some.injEq, true_and] at h
    rw [h]
  | error e => simp [read_moldflow_xml, hx, Except.map] at h

/-- C8 (counterexample to the claim as stated): for a NON-mesh record with
a single value block and `only_last_step` not requested, the claim
predicts an absent time axis, but the code always builds a time array for
non-mesh records (one entry per block). -/
theorem time_axis_counterexample :
    read_moldflow_xml
        (some ⟨"n", "NMDT(Non-mesh data)", "u", 1, [], [⟨some 5, [7]⟩]⟩) false =
      .ok (true, some ⟨"n", "NMDT(Non-mesh data)", "u", 1, some [some 5],
        .nonMesh [.scalar (some 7)]⟩)
    ∧ some [some (5 : ℚ)] ≠ (none : Option (List (Option ℚ)))
    ∧ ¬ (1 < ([⟨some 5, [7]⟩] : List NMBlock).length) :=
  ⟨rfl, by simp, by decide⟩

/-- C8 (amended): for mesh-kind records the time axis is present iff more
than one block exists and `only_last_step` was not requested; non-mesh
records always carry a time array with one entry per block, regardless of
the block count and of `only_last_step`. -/
theorem time_axis_rule (d : XmlDoc) (ols : Bool) (r : MFRecord)
    (h : read_moldflow_xml (some d) ols = .ok (true, some r)) :
    (d.dtype ≠ "NMDT(Non-mesh data)" →
        (r.time ≠ none ↔ (ols = false ∧ 1 < d.meshBlocks.length)))
    ∧ (d.dtype = "NMDT(Non-mesh data)" →
        r.time = some (d.nmBlocks.map (fun b => b.timeAttr))) := by
  have hdec := read_xml_ok_inv d ols r h
  constructor
  · intro hty
    cases ols with
    | true =>
      cases hlast : d.meshBlocks.getLast? with
      | none =>
        rw [decodeXml, if_pos hty] at hdec
        simp [hlast] at hdec
      | some b =>
        have := Except.ok.inj ((decodeXml_mesh_ols d hty b hlast).symm.trans hdec)
        rw [← this]
        simp
    | false =>
      by_cases hlen : d.meshBlocks.length ≤ 1
      · have := Except.ok.inj ((decodeXml_mesh_single d hty hlen).symm.trans hdec)
        rw [← this]
        simp
        omega
      · have := Except.ok.inj ((decodeXml_mesh_multi d hty hlen).symm.trans hdec)
        rw [← this]
        simp
        omega
  · intro hty
    have := Except.ok.inj ((decodeXml_nm d ols hty).symm.trans hdec)
    rw [← this]

/-- Witness for C8 (amended) at a concrete two-block mesh-kind record. -/
theorem time_axis_rule_witness :
    read_moldflow_xml
        (some ⟨"n", "ELDT(Element data)", "u", 1,
          [⟨some 0, []⟩, ⟨some 1, []⟩], []⟩) false =
      .ok (true, some ⟨"n", "ELDT(Element data)", "u", 1,
        some [some 0, some 1], .meshSteps [[], []]⟩)
    ∧ (("ELDT(Element data)" : String) ≠ "NMDT(Non-mesh data)" →
        ((some [some (0:ℚ), some 1] : Option (List (Option ℚ))) ≠ none ↔
          (false = false ∧
            1 < ([⟨some 0, []⟩, ⟨some 1, []⟩] : List MeshBlock).length)))
    ∧ (("ELDT(Element data)" : String) = "NMDT(Non-mesh data)" →
        (some [some (0:ℚ), some 1] : Option (List (Option ℚ))) =
          some (([] : List NMBlock).map (fun b => b.timeAttr))) :=
  ⟨rfl,
   (time_axis_rule ⟨"n", "ELDT(Element data)", "u", 1,
      [⟨some 0, []⟩, ⟨some 1, []⟩], []⟩ false
      ⟨"n", "ELDT(Element data)", "u", 1, some [some 0, some 1],
        .meshSteps [[], []]⟩ rfl).1,
   (time_axis_rule ⟨"n", "ELDT(Element data)", "u", 1,
      [⟨some 0, []⟩, ⟨some 1, []⟩], []⟩ false
      ⟨"n", "ELDT(Element data)", "u", 1, some [some 0, some 1],
        .meshSteps [[], []]⟩ rfl).2⟩

/-- C4: on a mesh-kind record with more than one value block,
`only_last_step=True` yields a record with no time axis whose single value
group equals the last group of the `only_last_step=False` run. -/
theorem only_last_step_last_group (d : XmlDoc)
    (hty : d.dtype ≠ "NMDT(Non-mesh data)")
    (hlen : 1 < d.meshBlocks.length) :
    ∃ g gs ts,
      read_moldflow_xml (some d) true =
        .ok (true, some ⟨d.name, d.dtype, d.unit, d.dim, none, .meshSingle g⟩)
      ∧ read_moldflow_xml (some d) false =
        .ok (true, some ⟨d.name, d.dtype, d.unit, d.dim, some ts, .meshSteps gs⟩)
      ∧ gs.getLast? = some g
      ∧ gs.length = d.meshBlocks.length := by
  have hne : d.meshBlocks ≠ [] := by
    intro hnil
    rw [hnil] at hlen
    simp at hlen
  obtain ⟨b, hb⟩ : ∃ b, d.meshBlocks.getLast? = some b :=
    Option.isSome_iff_exists.mp (List.getLast?_isSome.mpr hne)
  refine ⟨groupOf d.dim b, d.meshBlocks.map (groupOf d.dim),
    d.meshBlocks.map (fun b => b.timeAttr), ?_, ?_, ?_, by simp⟩
  · rw [read_moldflow_xml, decodeXml_mesh_ols d hty b hb, Except.map]
  · rw [read_moldflow_xml, decodeXml_mesh_multi d hty (by omega), Except.map]
  · rw [List.getLast?_map, hb, Option.map]

/-- Witness for C4 at a concrete two-block record with distinct groups. -/
theorem only_last_step_last_group_witness :
    (("NDDT(Node data)" : String) ≠ "NMDT(Non-mesh data)")
    ∧ 1 < ([⟨some 0, [(1, [3])]⟩, ⟨some 1, [(1, [4])]⟩] : List MeshBlock).length
    ∧ ∃ g gs ts,
        read_moldflow_xml
          (some ⟨"n", "NDDT(Node data)", "u", 1,
            [⟨some 0, [(1, [3])]⟩, ⟨some 1, [(1, [4])]⟩], []⟩) true =
          .ok (true, some ⟨"n", "NDDT(Node data)", "u", 1, none,
            .meshSingle g⟩)
        ∧ read_moldflow_xml
          (some ⟨"n", "NDDT(Node data)", "u", 1,
            [⟨some 0, [(1, [3])]⟩, ⟨some 1, [(1, [4])]⟩], []⟩) false =
          .ok (true, some ⟨"n", "NDDT(Node data)", "u", 1, some ts,
            .meshSteps gs⟩)
        ∧ gs.getLast? = some g
        ∧ gs.length = ([⟨some 0, [(1, [3])]⟩, ⟨some 1, [(1, [4])]⟩] :
            List MeshBlock).length :=
  ⟨by decide, by decide,
   only_last_step_last_group
     ⟨"n", "NDDT(Node data)", "u", 1,
       [⟨some 0, [(1, [3])]⟩, ⟨some 1, [(1, [4])]⟩], []⟩
     (by decide) (by decide)⟩

/-- C3 (counterexample to the claim as stated): when no suffix is below
`t`, `_func_at` falls back to `f_ts[0]`, the FIRST suffix in document
order, not the smallest suffix value.  With suffixes listed as
`[2.0, 1.0]` and `t = 0`, the code selects `2.0` although the smallest
available suffix is `1.0`. -/
theorem func_at_fallback_counterexample :
    func_at [⟨"F", some 2⟩, ⟨"F", some 1⟩] "F" 0 = some 2
    ∧ (1 : ℚ) ∈ f_timestep [⟨"F", some 2⟩, ⟨"F", some 1⟩] "F"
    ∧ (∀ x ∈ f_timestep [⟨"F", some 2⟩, ⟨"F", some 1⟩] "F", (1 : ℚ) ≤ x)
    ∧ (∀ x ∈ f_timestep [⟨"F", some 2⟩, ⟨"F", some 1⟩] "F", ¬ x < 0)
    ∧ (2 : ℚ) ≠ 1 :=
  ⟨rfl, by decide, by decide, by decide, by decide⟩

/-- C3 (amended): for a function with at least one time suffix, `_func_at`
selects the exact match if the target time is among the suffixes; else
the greatest suffix strictly below the target; else (no suffix below the
target) the FIRST suffix in document order, `f_ts[0]` — which is the
smallest one only when the suffixes are listed in ascending order. -/
theorem func_at_rule (func_all : List Frag) (f : String) (t : ℚ) :
    (t ∈ f_timestep func_all f → func_at func_all f t = some t)
    ∧ (t ∉ f_timestep func_all f →
        (∃ x ∈ f_timestep func_all f, x < t) →
        ∃ M, func_at func_all f t = some M
          ∧ M ∈ f_timestep func_all f ∧ M < t
          ∧ ∀ x ∈ f_timestep func_all f, x < t → x ≤ M)
    ∧ (t ∉ f_timestep func_all f →
        (∀ x ∈ f_timestep func_all f, ¬ x < t) →
        func_at func_all f t = (f_timestep func_all f).head?) := by
  refine ⟨?_, ?_, ?_⟩
  · intro hmem
    rw [func_at, if_neg (List.ne_nil_of_mem hmem), if_pos hmem]
  · intro hnm hex
    obtain ⟨x0, hx0, hx0t⟩ := hex
    have hne : f_timestep func_all f ≠ [] := List.ne_nil_of_mem hx0
    have hx0f : x0 ∈ (f_timestep func_all f).filter (fun x => decide (x < t)) :=
      List.mem_filter.mpr ⟨hx0, by simpa using hx0t⟩
    cases hfil : (f_timestep func_all f).filter (fun x => decide (x < t)) with
    | nil => rw [hfil] at hx0f; cases hx0f
    | cons x xs =>
      have hmem2 : xs.foldl max x ∈ x :: xs := foldl_max_mem x xs
      rw [← hfil] at hmem2
      have hmf := List.mem_filter.mp hmem2
      refine ⟨xs.foldl max x, ?_, hmf.1, by simpa using hmf.2, ?_⟩
      · rw [func_at, if_neg hne, if_neg hnm, hfil]
      · intro y hy hyt
        have hyf : y ∈ (f_timestep func_all f).filter (fun z => decide (z < t)) :=
          List.mem_filter.mpr ⟨hy, by simpa using hyt⟩
        rw [hfil] at hyf
        exact le_foldl_max x xs y hyf
  · intro hnm hall
    have hfil : (f_timestep func_all f).filter (fun x => decide (x < t)) = [] := by
      rw [List.filter_eq_nil_iff]
      intro x hx
      simpa using hall x hx
    by_cases hne : f_timestep func_all f = []
    · rw [func_at, if_pos hne, hne]
      rfl
    · rw [func_at, if_neg hne, if_neg hnm, hfil]

/-- Witness for C3 (amended): with suffixes `{0, 1, 2}` listed ascending,
target `1.5` selects the greatest suffix below it and target `-0.5` falls
back to the first-listed suffix `0`. -/
theorem func_at_rule_witness :
    (mkRat 3 2 ∉ f_timestep [⟨"F", some 0⟩, ⟨"F", some 1⟩, ⟨"F", some 2⟩] "F")
    ∧ (∃ x ∈ f_timestep [⟨"F", some 0⟩, ⟨"F", some 1⟩, ⟨"F", some 2⟩] "F",
        x < mkRat 3 2)
    ∧ (∃ M, func_at [⟨"F", some 0⟩, ⟨"F", some 1⟩, ⟨"F", some 2⟩] "F"
          (mkRat 3 2) = some M
        ∧ M ∈ f_timestep [⟨"F", some 0⟩, ⟨"F", some 1⟩, ⟨"F", some 2⟩] "F"
        ∧ M < mkRat 3 2
        ∧ ∀ x ∈ f_timestep [⟨"F", some 0⟩, ⟨"F", some 1⟩, ⟨"F", some 2⟩] "F",
            x < mkRat 3 2 → x ≤ M)
    ∧ (mkRat (-1) 2 ∉
        f_timestep [⟨"F", some 0⟩, ⟨"F", some 1⟩, ⟨"F", some 2⟩] "F")
    ∧ (∀ x ∈ f_timestep [⟨"F", some 0⟩, ⟨"F", some 1⟩, ⟨"F", some 2⟩] "F",
        ¬ x < mkRat (-1) 2)
    ∧ func_at [⟨"F", some 0⟩, ⟨"F", some 1⟩, ⟨"F", some 2⟩] "F"
        (mkRat (-1) 2) =
      (f_timestep [⟨"F", some 0⟩, ⟨"F", some 1⟩, ⟨"F", some 2⟩] "F").head? :=
  ⟨by decide, by decide,
   (func_at_rule [⟨"F", some 0⟩, ⟨"F", some 1⟩, ⟨"F", some 2⟩] "F"
      (mkRat 3 2)).2.1 (by decide) (by decide),
   by decide, by decide,
   (func_at_rule [⟨"F", some 0⟩, ⟨"F", some 1⟩, ⟨"F", some 2⟩] "F"
      (mkRat (-1) 2)).2.2 (by decide) (by decide)⟩

/-- The fill loop writes the common value of all writers of a position at
that position, provided at least one writer exists or the position
already holds it. -/
theorem project_values_get (locate : List (Int × Nat)) (pos : Nat)
    (v : List (Option ℚ)) :
    ∀ (vals : List (Int × List (Option ℚ))) (init : List (List (Option ℚ))),
      pos < init.length →
      (∀ p ∈ vals, dictLookup locate p.1 = some pos → p.2 = v) →
      (init[pos]? = some v ∨ ∃ p ∈ vals, dictLookup locate p.1 = some pos) →
      (project_values locate init vals)[pos]? = some v := by
  intro vals
  induction vals with
  | nil =>
    intro init hlen huniq hstart
    rcases hstart with h | ⟨p, hp, _⟩
    · simpa [project_values] using h
    · simp at hp
  | cons hd rest ih =>
    intro init hlen huniq hstart
    have hstep : project_values locate init (hd :: rest) =
        project_values locate
          (match dictLookup locate hd.1 with
           | some q => init.set q hd.2
           | none => init) rest := rfl
    rw [hstep]
    cases hl : dictLookup locate hd.1 with
    | none =>
      simp only [hl]
      apply ih init hlen
      · intro p hp hpos
        exact huniq p (List.mem_cons_of_mem _ hp) hpos
      · rcases hstart with h | ⟨p, hp, hpos⟩
        · exact Or.inl h
        · rcases List.mem_cons.mp hp with rfl | hp'
          · rw [hl] at hpos; cases hpos
          · exact Or.inr ⟨p, hp', hpos⟩
    | some q =>
      simp only [hl]
      by_cases hq : q = pos
      · subst hq
        have hv : hd.2 = v := huniq hd (List.mem_cons_self _ _) hl
        apply ih (init.set q hd.2) (by simpa using hlen)
        · intro p hp hpos
          exact huniq p (List.mem_cons_of_mem _ hp) hpos
        · exact Or.inl (by rw [List.getElem?_set_self (h := hlen), hv])
      · apply ih (init.set q hd.2) (by simpa using hlen)
        · intro p hp hpos
          exact huniq p (List.mem_cons_of_mem _ hp) hpos
        · rcases hstart with h | ⟨p, hp, hpos⟩
          · exact Or.inl (by rw [List.getElem?_set_ne hq, h])
          · rcases List.mem_cons.mp hp with rfl | hp'
            · rw [hl] at hpos
              exact absurd (Option.some.inj hpos) hq
            · exact Or.inr ⟨p, hp', hpos⟩

/-- C5: for a 6-component record, projection stores each resolved value
with components permuted from on-disk order `[11,22,33,12,13,23]` to
consumer order `[11,22,33,12,23,13]` (columns `[0,1,2,3,5,4]`); the
literal row `[1,2,3,4,5,6]` becomes `[1,2,3,4,6,5]`; and every step of a
time-varying projection applies the same single-step computation. -/
theorem sixcomp_reorder (locate : List (Int × Nat)) (num : Nat)
    (vals : List (Int × List (Option ℚ))) (id : Int) (v : List (Option ℚ))
    (pos : Nat) (steps : List (List (Int × List (Option ℚ))))
    (hmem : (id, v) ∈ vals) (hloc : dictLookup locate id = some pos)
    (huniq : ∀ p ∈ vals, dictLookup locate p.1 = some pos → p.2 = v)
    (hpos : pos < num) :
    (process_single_result locate num 6 vals)[pos]? = some (reorder6 v)
    ∧ process_time_series_result locate num 6 steps =
        steps.map (process_single_result locate num 6)
    ∧ reorder6 [some 1, some 2, some 3, some 4, some 5, some 6] =
        [some 1, some 2, some 3, some 4, some 6, some 5] := by
  refine ⟨?_, rfl, rfl⟩
  have hproj : (project_values locate
      (List.replicate num (List.replicate 6 none)) vals)[pos]? = some v := by
    apply project_values_get locate pos v vals _ (by simpa using hpos) huniq
    exact Or.inr ⟨(id, v), hmem, hloc⟩
  unfold process_single_result
  rw [if_pos rfl, List.getElem?_map, hproj, Option.map]

/-- Witness for C5 at a one-row field with the literal six components. -/
theorem sixcomp_reorder_witness :
    ((7, [some 1, some 2, some 3, some 4, some 5, some 6]) ∈
      ([(7, [some 1, some 2, some 3, some 4, some 5, some 6])] :
        List (Int × List (Option ℚ))))
    ∧ dictLookup [(7, 0)] 7 = some 0
    ∧ (0 < 1)
    ∧ (process_single_result [(7, 0)] 1 6
        [(7, [some 1, some 2, some 3, some 4, some 5, some 6])])[0]? =
      some (reorder6 [some 1, some 2, some 3, some 4, some 5, some 6])
    ∧ process_time_series_result [(7, 0)] 1 6
        [[(7, [some 1, some 2, some 3, some 4, some 5, some 6])]] =
      [[(7, [some 1, some 2, some 3, some 4, some 5, some 6])]].map
        (process_single_result [(7, 0)] 1 6)
    ∧ reorder6 [some 1, some 2, some 3, some 4, some 5, some 6] =
        [some 1, some 2, some 3, some 4, some 6, some 5] := by
  have h := sixcomp_reorder [(7, 0)] 1
    [(7, [some 1, some 2, some 3, some 4, some 5, some 6])] 7
    [some 1, some 2, some 3, some 4, some 5, some 6] 0
    [[(7, [some 1, some 2, some 3, some 4, some 5, some 6])]]
    (by decide) (by decide) (by decide) (by decide)
  exact ⟨by decide, by decide, by decide, h.1, h.2.1, h.2.2⟩

/-- The records of a small mesh with one quadrilateral and one
tetrahedron.  Both kinds have four vertices, so the per-kind
connectivity arrays share their row width and the source's
`np.concatenate` in `remove_free_points` succeeds: this construction
really completes in the program (kinds of different arity, such as
triangle plus tetra, would instead crash there with a `ValueError`). -/
def recs9 : List PatRecord :=
  [.point 1 (0, 0, 0), .point 2 (1, 0, 0), .point 3 (0, 1, 0),
   .point 4 (0, 0, 1), .cell 100 4 4 [1, 2, 3, 4], .cell 200 5 4 [1, 2, 3, 4]]

/-- The mesh `PatranMesh` builds from `recs9` with
`read_celltypes=["quad", "tetra"]`. -/
def mesh9 : Mesh :=
  ⟨⟨[(1, 0), (2, 1), (3, 2), (4, 3)],
    [(0, 0, 0), (1, 0, 0), (0, 1, 0), (0, 0, 1)],
    [⟨"quad", [100], [[0, 1, 2, 3]]⟩, ⟨"tetra", [200], [[0, 1, 2, 3]]⟩],
    [], []⟩, 2, 4⟩

/-- C9 (counterexample to the claim as stated): on a constructed mesh
with one quadrilateral and one tetrahedron, `average_point_to_cell`
allocates `np.zeros(self.ncells)` — one entry per cell of EVERY retained
kind — so its output has 2 entries although there is exactly 1
tetrahedral cell. -/
theorem average_point_to_cell_counterexample :
    patranConstruct recs9 ["quad", "tetra"] = .ok mesh9
    ∧ (average_point_to_cell mesh9 [1, 2, 3, 4]).length = 2
    ∧ (tetraConn mesh9).length = 1
    ∧ (2 : Nat) ≠ 1 :=
  ⟨rfl, by simp [average_point_to_cell, mesh9], by decide, by decide⟩

/-- C9 (amended): `average_point_to_cell` returns an array with one entry
per cell of the mesh across ALL retained cell kinds (`self.ncells`), not
one per tetrahedron: entry `i` for `i` below the tetra count is the
arithmetic mean of the input values at that tetra's four vertices, and
the remaining entries stay zero. -/
theorem average_point_to_cell_rule (m : Mesh) (d : List ℚ) (blk : CellBlock)
    (hfind : m.cellBlocks.find? (fun b => b.ctype = "tetra") = some blk)
    (hsum : m.ncells = (m.cellBlocks.map (fun b => b.conn.length)).sum)
    (hlen : ∀ c ∈ blk.conn, c.length = 4)
    (_hidx : ∀ c ∈ blk.conn, ∀ v ∈ c, v < d.length) :
    (average_point_to_cell m d).length = m.ncells
    ∧ (∀ (i : Nat) (c : List Nat), blk.conn[i]? = some c →
        (average_point_to_cell m d)[i]? =
          some ((c.map (fun v => d.getD v 0)).sum / 4))
    ∧ (∀ i, blk.conn.length ≤ i → i < m.ncells →
        (average_point_to_cell m d)[i]? = some 0) := by
  have ht : tetraConn m = blk.conn := by
    unfold tetraConn
    rw [hfind]
    rfl
  have hble : blk.conn.length ≤ m.ncells := by
    rw [hsum]
    exact List.le_sum_of_mem
      (List.mem_map_of_mem _ (List.mem_of_find?_eq_some hfind))
  refine ⟨by simp [average_point_to_cell], ?_, ?_⟩
  · intro i c hci
    obtain ⟨hi, hgc⟩ := List.getElem?_eq_some.mp hci
    have hin : i < m.ncells := lt_of_lt_of_le hi hble
    rw [average_point_to_cell, List.getElem?_map, List.getElem?_range hin,
      Option.map]
    have hi' : i < (tetraConn m).length := by rw [ht]; exact hi
    rw [dif_pos hi']
    have hgc' : (tetraConn m).get ⟨i, hi'⟩ = c := by
      have h2 : (tetraConn m)[i]? = some c := by rw [ht]; exact hci
      obtain ⟨h3, h4⟩ := List.getElem?_eq_some.mp h2
      exact h4
    rw [hgc']
    have hmem : c ∈ blk.conn := by
      rw [← hgc]
      exact List.getElem_mem hi
    have h4 : c.length = 4 := hlen _ hmem
    unfold listMean
    rw [List.length_map, h4]
    norm_num
  · intro i hge hin
    rw [average_point_to_cell, List.getElem?_map, List.getElem?_range hin,
      Option.map]
    rw [dif_neg (by rw [ht]; omega)]

/-- Witness for C9 (amended) on the constructed triangle+tetra mesh with
point data `[1, 2, 3, 4]`: two entries, the tetra mean `5/2` first, then
a padding zero. -/
theorem average_point_to_cell_rule_witness :
    mesh9.cellBlocks.find? (fun b => b.ctype = "tetra") =
      some ⟨"tetra", [200], [[0, 1, 2, 3]]⟩
    ∧ mesh9.ncells = (mesh9.cellBlocks.map (fun b => b.conn.length)).sum
    ∧ (average_point_to_cell mesh9 [1, 2, 3, 4]).length = mesh9.ncells
    ∧ (average_point_to_cell mesh9 [1, 2, 3, 4])[0]? = some (mkRat 5 2)
    ∧ (average_point_to_cell mesh9 [1, 2, 3, 4])[1]? = some 0 := by
  have h := average_point_to_cell_rule mesh9 [1, 2, 3, 4]
    ⟨"tetra", [200], [[0, 1, 2, 3]]⟩ (by decide) (by decide)
    (by decide) (by decide)
  refine ⟨by decide, by decide, h.1, ?_, h.2.2 1 (by decide) (by decide)⟩
  rw [h.2.1 0 [0, 1, 2, 3] (by decide)]
  norm_num [Rat.mkRat_eq_div]

/-- The point pass processes concatenated record lists sequentially. -/
theorem readPoints_append (l1 l2 : List PatRecord)
    (st : List (Int × Nat) × List (ℚ × ℚ × ℚ)) :
    readPoints (l1 ++ l2) st = readPoints l2 (readPoints l1 st) := by
  induction l1 generalizing st with
  | nil => rfl
  | cons r t ih =>
    obtain ⟨pid, pts⟩ := st
    cases r <;> simp only [List.cons_append, readPoints] <;> exact ih _

/-- The cell pass processes concatenated record lists sequentially. -/
theorem readCells_append (kinds : List String) (pid : List (Int × Nat))
    (l1 l2 : List PatRecord) (blocks : List CellBlock) :
    readCells kinds pid (l1 ++ l2) blocks =
      (readCells kinds pid l1 blocks).bind
        (fun b => readCells kinds pid l2 b) := by
  induction l1 generalizing blocks with
  | nil => rfl
  | cons r t ih =>
    cases r with
    | cell cid code np conn =>
      simp only [List.cons_append, readCells]
      cases patranToMeshio kinds code with
      | none => exact ih _
      | some name =>
        cases lookupConn pid (conn.take np) with
        | ok c => exact ih _
        | error e => rfl
    | point e c => simp only [List.cons_append, readCells]; exact ih _
    | garbage => simp only [List.cons_append, readCells]; exact ih _

/-- C7 (amended): when the input yields no cell record of a requested
kind, `PatranMesh` construction does NOT report a failure value — it
raises an uncaught `IndexError` (`self.ncells_cumsum[-1]` on an empty
array in `init_mesh`).  Individual unrecognized records, and cell records
of unrequested kinds, are skipped without aborting the parse. -/
theorem patran_no_cells_faults (recs : List PatRecord) (kinds : List String)
    (l1 l2 : List PatRecord) (cid : Int) (code np : Nat) (conn : List Int) :
    (∀ raw, patranRead recs kinds = .ok raw → raw.cellBlocks = [] →
        patranConstruct recs kinds = .error .indexError)
    ∧ patranRead (l1 ++ .garbage :: l2) kinds = patranRead (l1 ++ l2) kinds
    ∧ (patranToMeshio kinds code = none →
        patranRead (l1 ++ .cell cid code np conn :: l2) kinds =
          patranRead (l1 ++ l2) kinds) := by
  refine ⟨?_, ?_, ?_⟩
  · intro raw hread hblocks
    rw [patranConstruct, hread]
    show init_mesh raw = .error .indexError
    rw [init_mesh, hblocks]
  · have hp : readPoints (l1 ++ PatRecord.garbage :: l2) ([], []) =
        readPoints (l1 ++ l2) ([], []) := by
      rw [readPoints_append, readPoints_append]
      rfl
    have hc : ∀ pid blocks,
        readCells kinds pid (l1 ++ PatRecord.garbage :: l2) blocks =
          readCells kinds pid (l1 ++ l2) blocks := by
      intro pid blocks
      rw [readCells_append, readCells_append]
      cases readCells kinds pid l1 blocks <;> rfl
    unfold patranRead
    simp only [hp, hc]
  · intro hskip
    have hp : readPoints (l1 ++ PatRecord.cell cid code np conn :: l2)
        ([], []) = readPoints (l1 ++ l2) ([], []) := by
      rw [readPoints_append, readPoints_append]
      rfl
    have hc : ∀ pid blocks,
        readCells kinds pid (l1 ++ PatRecord.cell cid code np conn :: l2)
          blocks = readCells kinds pid (l1 ++ l2) blocks := by
      intro pid blocks
      rw [readCells_append, readCells_append]
      cases readCells kinds pid l1 blocks with
      | error e => rfl
      | ok b =>
        show readCells kinds pid (PatRecord.cell cid code np conn :: l2) b =
          readCells kinds pid l2 b
        rw [readCells, hskip]
    unfold patranRead
    simp only [hp, hc]

/-- C7 (counterexample to the claim as stated): on input with no
recognizable point record and no recognizable cell record (and likewise
on input whose only records are unrecognizable), `PatranMesh`
construction does not return a success flag or option value — it raises
an uncaught `IndexError` (modelled by `Except.error`), from
`self.ncells_cumsum[-1]` on the empty cumulative-sum array. -/
theorem patran_fault_counterexample :
    patranConstruct [] ["triangle", "tetra"] = .error .indexError
    ∧ patranConstruct [.garbage] ["triangle", "tetra"] = .error .indexError :=
  ⟨rfl, rfl⟩

/-- Witness for C7 (amended) on concrete record lists. -/
theorem patran_no_cells_faults_witness :
    patranRead [.garbage] ["triangle", "tetra"] = .ok ⟨[], [], [], [], []⟩
    ∧ patranConstruct [.garbage] ["triangle", "tetra"] = .error .indexError
    ∧ patranRead ([] ++ .garbage :: [.point 1 (0, 0, 0)])
        ["triangle", "tetra"] =
      patranRead ([] ++ [.point 1 (0, 0, 0)]) ["triangle", "tetra"]
    ∧ patranToMeshio ["triangle", "tetra"] 4 = none
    ∧ patranRead ([] ++ .cell 9 4 4 [1, 1, 1, 1] :: [.point 1 (0, 0, 0)])
        ["triangle", "tetra"] =
      patranRead ([] ++ [.point 1 (0, 0, 0)]) ["triangle", "tetra"] := by
  have h := patran_no_cells_faults [.garbage] ["triangle", "tetra"]
    [] [.point 1 (0, 0, 0)] 9 4 4 [1, 1, 1, 1]
  exact ⟨rfl, h.1 ⟨[], [], [], [], []⟩ rfl rfl, h.2.1, by decide,
    h.2.2 (by decide)⟩

/-! ## Lemmas for the mesh construction invariants (C1) -/

/-- Every value stored by `dictInsert` is either the inserted one or one
already present. -/
theorem dictInsert_val (d : List (Int × Nat)) (k : Int) (v : Nat)
    (p : Int × Nat) (hp : p ∈ dictInsert d k v) :
    p.2 = v ∨ ∃ q ∈ d, p.2 = q.2 := by
  unfold dictInsert at hp
  split at hp
  · obtain ⟨q, hq, hqe⟩ := List.mem_map.mp hp
    by_cases hk : q.1 = k
    · rw [if_pos hk] at hqe
      left
      rw [← hqe]
    · rw [if_neg hk] at hqe
      exact Or.inr ⟨q, hq, by rw [← hqe]⟩
  · rcases List.mem_append.mp hp with h | h
    · exact Or.inr ⟨p, h, rfl⟩
    · left
      rw [List.mem_singleton.mp h]

/-- The point pass keeps every `pointsID` value below the point count. -/
theorem readPoints_values_lt (recs : List PatRecord) :
    ∀ (st : List (Int × Nat) × List (ℚ × ℚ × ℚ)),
      (∀ p ∈ st.1, p.2 < st.2.length) →
      ∀ p ∈ (readPoints recs st).1, p.2 < (readPoints recs st).2.length := by
  induction recs with
  | nil => intro st h; exact h
  | cons r t ih =>
    intro st h
    obtain ⟨pid, pts⟩ := st
    cases r with
    | point e c =>
      apply ih
      intro p hp
      rcases dictInsert_val pid e pts.length p hp with hv | ⟨q, hq, hqe⟩
      · simp [hv]
      · have h2 : q.2 < pts.length := h q hq
        simp only [hqe, List.length_append, List.length_cons, List.length_nil]
        omega
    | cell cid code np conn => exact ih (pid, pts) h
    | garbage => exact ih (pid, pts) h

/-- A successful dict lookup returns a stored value. -/
theorem dictLookup_val (d : List (Int × Nat)) (k : Int) (v : Nat)
    (h : dictLookup d k = some v) : ∃ p ∈ d, p.2 = v := by
  unfold dictLookup at h
  cases hf : d.find? (fun p => p.1 = k) with
  | none => rw [hf] at h; cases h
  | some q =>
    rw [hf] at h
    exact ⟨q, List.mem_of_find?_eq_some hf, Option.some.inj h⟩

/-- Every index produced by `get_cell` is a stored `pointsID` value. -/
theorem lookupConn_vals (pid : List (Int × Nat)) :
    ∀ (l : List Int) (c : List Nat), lookupConn pid l = .ok c →
      ∀ v ∈ c, ∃ p ∈ pid, p.2 = v := by
  intro l
  induction l with
  | nil =>
    intro c h v hv
    cases Except.ok.inj h
    cases hv
  | cons e rest ih =>
    intro c h v hv
    unfold lookupConn at h
    cases hl : dictLookup pid e with
    | none => rw [hl] at h; cases h
    | some w =>
      rw [hl] at h
      cases hr : lookupConn pid rest with
      | error er => rw [hr] at h; cases h
      | ok c' =>
        rw [hr] at h
        cases Except.ok.inj h
        rcases List.mem_cons.mp hv with rfl | hv'
        · exact dictLookup_val pid e v hl
        · exact ih c' hr v hv'

/-- Each connectivity row after `addToBlocks` is an old row or the new
one. -/
theorem addToBlocks_conn (blocks : List CellBlock) (name : String)
    (cid : Int) (c : List Nat) (b : CellBlock)
    (hb : b ∈ addToBlocks blocks name cid c) (cc : List Nat)
    (hcc : cc ∈ b.conn) :
    (∃ b0 ∈ blocks, cc ∈ b0.conn) ∨ cc = c := by
  unfold addToBlocks at hb
  split at hb
  · obtain ⟨b0, hb0, hbe⟩ := List.mem_map.mp hb
    by_cases hn : b0.ctype = name
    · rw [if_pos hn] at hbe
      rw [← hbe] at hcc
      simp only at hcc
      rcases List.mem_append.mp hcc with h | h
      · exact Or.inl ⟨b0, hb0, h⟩
      · exact Or.inr (List.mem_singleton.mp h)
    · rw [if_neg hn] at hbe
      rw [← hbe] at hcc
      exact Or.inl ⟨b0, hb0, hcc⟩
  · rcases List.mem_append.mp hb with h | h
    · exact Or.inl ⟨b, h, hcc⟩
    · rw [List.mem_singleton.mp h] at hcc
      exact Or.inr (List.mem_singleton.mp hcc)

/-- The cell pass preserves "every connectivity index is a stored
`pointsID` value". -/
theorem readCells_conn (kinds : List String) (pid : List (Int × Nat)) :
    ∀ (recs : List PatRecord) (blocks blocks' : List CellBlock),
      readCells kinds pid recs blocks = .ok blocks' →
      (∀ b ∈ blocks, ∀ c ∈ b.conn, ∀ v ∈ c, ∃ p ∈ pid, p.2 = v) →
      ∀ b ∈ blocks', ∀ c ∈ b.conn, ∀ v ∈ c, ∃ p ∈ pid, p.2 = v := by
  intro recs
  induction recs with
  | nil =>
    intro blocks blocks' h hinv
    cases Except.ok.inj h
    exact hinv
  | cons r t ih =>
    intro blocks blocks' h hinv
    cases r with
    | point e c => exact ih blocks blocks' h hinv
    | garbage => exact ih blocks blocks' h hinv
    | cell cid code np conn =>
      rw [readCells] at h
      cases hm : patranToMeshio kinds code with
      | none =>
        rw [hm] at h
        exact ih blocks blocks' h hinv
      | some name =>
        rw [hm] at h
        cases hl : lookupConn pid (conn.take np) with
        | error e => rw [hl] at h; cases h
        | ok c =>
          rw [hl] at h
          apply ih _ blocks' h
          intro b hb cc hcc v hv
          rcases addToBlocks_conn blocks name cid c b hb cc hcc with
            ⟨b0, hb0, hcc0⟩ | rfl
          · exact hinv b0 hb0 cc hcc0 v hv
          · exact lookupConn_vals pid (conn.take np) cc hl v hv

/-- External ids of the point records, in document order. -/
def pointIds (recs : List PatRecord) : List Int :=
  recs.filterMap (fun r =>
    match r with
    | .point e _ => some e
    | _ => none)

theorem zip_map_fst (l₁ : List α) (l₂ : List β) (h : l₁.length = l₂.length) :
    (l₁.zip l₂).map Prod.fst = l₁ := by
  induction l₁ generalizing l₂ with
  | nil => simp
  | cons a t ih =>
    cases l₂ with
    | nil => simp_all
    | cons b t2 => simp_all

/-- Inversion of a successful `patranRead`. -/
theorem patranRead_inv (recs : List PatRecord) (kinds : List String)
    (raw : RawMesh) (h : patranRead recs kinds = .ok raw) :
    raw.pointsID = (readPoints recs ([], [])).1
    ∧ raw.points = (readPoints recs ([], [])).2
    ∧ readCells kinds (readPoints recs ([], [])).1 recs [] =
        .ok raw.cellBlocks
    ∧ raw.point_data = [] ∧ raw.cell_data = [] := by
  simp only [patranRead] at h
  split at h
  · cases h
  · split at h
    · cases h
    · cases hc : readCells kinds (readPoints recs ([], [])).1 recs [] with
      | error e => rw [hc] at h; cases h
      | ok blocks =>
        rw [hc] at h
        simp only [Except.map, Except.ok.injEq] at h
        rw [← h]
        exact ⟨rfl, rfl, rfl, rfl, rfl⟩

/-- C1 part (a) before free-point removal: every connectivity index of a
freshly read mesh is below the point count. -/
theorem patranRead_conn_lt (recs : List PatRecord) (kinds : List String)
    (raw : RawMesh) (h : patranRead recs kinds = .ok raw) :
    ∀ b ∈ raw.cellBlocks, ∀ c ∈ b.conn, ∀ v ∈ c, v < raw.points.length := by
  obtain ⟨hpid, hpts, hcells, -, -⟩ := patranRead_inv recs kinds raw h
  intro b hb c hc v hv
  obtain ⟨p, hp, hpe⟩ :=
    readCells_conn kinds (readPoints recs ([], [])).1 recs []
      raw.cellBlocks hcells (by simp) b hb c hc v hv
  have hlt := readPoints_values_lt recs ([], []) (by simp) p hp
  rw [hpts, ← hpe]
  exact hlt

/-- The point pass builds `pointsID` as the zip of the (distinct) external
ids with `0, 1, 2, ...`, and one point row per point record. -/
theorem readPoints_struct (recs : List PatRecord) :
    ∀ (ids0 : List Int) (pts0 : List (ℚ × ℚ × ℚ)),
      ids0.length = pts0.length →
      (ids0 ++ pointIds recs).Nodup →
      (readPoints recs (ids0.zip (List.range pts0.length), pts0)).1 =
        (ids0 ++ pointIds recs).zip
          (List.range (ids0 ++ pointIds recs).length)
      ∧ (readPoints recs (ids0.zip (List.range pts0.length), pts0)).2.length =
        (ids0 ++ pointIds recs).length := by
  induction recs with
  | nil =>
    intro ids0 pts0 hlen hnd
    simp [readPoints, pointIds, hlen]
  | cons r t ih =>
    intro ids0 pts0 hlen hnd
    cases r with
    | point e c =>
      have hpe : pointIds (PatRecord.point e c :: t) = e :: pointIds t := rfl
      rw [hpe] at hnd ⊢
      have hnd' : ((ids0 ++ [e]) ++ pointIds t).Nodup := by
        rw [List.append_assoc, List.singleton_append]
        exact hnd
      have hnotin : e ∉ ids0 := by
        intro hmem
        rcases List.nodup_append.mp hnd with ⟨-, -, hdisj⟩
        exact hdisj hmem (List.mem_cons_self _ _)
      have hlenz : ids0.length = (List.range pts0.length).length := by
        simp [hlen]
      have hins : dictInsert (ids0.zip (List.range pts0.length)) e
          pts0.length = (ids0 ++ [e]).zip (List.range (pts0.length + 1)) := by
        unfold dictInsert
        rw [if_neg ?hne]
        case hne =>
          intro hany
          obtain ⟨p, hp, hpk⟩ := List.any_eq_true.mp hany
          apply hnotin
          have : p.1 ∈ (ids0.zip (List.range pts0.length)).map Prod.fst :=
            List.mem_map_of_mem _ hp
          rw [zip_map_fst _ _ hlenz] at this
          rwa [← of_decide_eq_true hpk]
        rw [List.range_succ, List.zip_append hlenz]
        rfl
      have hstep : readPoints (PatRecord.point e c :: t)
          (ids0.zip (List.range pts0.length), pts0) =
          readPoints t ((ids0 ++ [e]).zip (List.range (pts0 ++ [c]).length),
            pts0 ++ [c]) := by
        rw [readPoints, hins]
        simp
      rw [hstep]
      have := ih (ids0 ++ [e]) (pts0 ++ [c]) (by simp [hlen]) hnd'
      rw [List.append_assoc, List.singleton_append] at this
      exact this
    | cell cid code np conn =>
      exact ih ids0 pts0 hlen hnd
    | garbage =>
      exact ih ids0 pts0 hlen hnd

/-- C1 part (c) before free-point removal: with distinct external point
ids, `pointsID` maps them in order onto `0, 1, ..., n-1` with `n` the
point count. -/
theorem patranRead_pid (recs : List PatRecord) (kinds : List String)
    (raw : RawMesh) (h : patranRead recs kinds = .ok raw)
    (hnd : (pointIds recs).Nodup) :
    raw.pointsID = (pointIds recs).zip (List.range (pointIds recs).length)
    ∧ raw.points.length = (pointIds recs).length := by
  obtain ⟨hpid, hpts, -, -, -⟩ := patranRead_inv recs kinds raw h
  have hs := readPoints_struct recs [] [] rfl (by simpa using hnd)
  simp only [List.zip_nil_left, List.length_nil, List.range_zero,
    List.nil_append] at hs
  constructor
  · rw [hpid]
    exact hs.1
  · rw [hpts]
    exact hs.2

/-- The number of referenced (kept) indices strictly below `v`. -/
def rankIn (flat : List Nat) (v : Nat) : Nat :=
  (List.range v).countP (fun i => decide (i ∈ flat))

theorem filter_range_lt (n v : Nat) (h : v ≤ n) :
    (List.range n).filter (fun a => decide (a < v)) = List.range v := by
  induction n with
  | zero =>
    have h0 : v = 0 := Nat.le_zero.mp h
    subst h0
    rfl
  | succ m ih =>
    rcases Nat.lt_or_ge v (m + 1) with hv | hv
    · have hvm : v ≤ m := by omega
      rw [List.range_succ, List.filter_append, ih hvm]
      have hnot : ¬ (m < v) := by omega
      simp [hnot]
    · have hv' : v = m + 1 := by omega
      subst hv'
      rw [List.filter_eq_self.mpr]
      intro a ha
      simp only [List.mem_range] at ha
      simpa using ha

theorem countP_lt_free (flat : List Nat) (n v : Nat) (hv : v ≤ n) :
    ((List.range n).filter (fun i => decide (i ∉ flat))).countP
        (fun f => decide (f < v)) =
      (List.range v).countP (fun i => decide (i ∉ flat)) := by
  rw [List.countP_filter]
  rw [show (fun (a : Nat) => decide (a < v) && decide (a ∉ flat)) =
      (fun (a : Nat) => decide (a ∉ flat) && decide (a < v)) from
    funext (fun a => Bool.and_comm _ _)]
  rw [← List.countP_filter, filter_range_lt n v hv]

theorem countP_mem_add_not_mem (l : List Nat) (flat : List Nat) :
    l.countP (fun i => decide (i ∈ flat)) +
      l.countP (fun i => decide (i ∉ flat)) = l.length := by
  induction l with
  | nil => rfl
  | cons a t ih =>
    by_cases ha : a ∈ flat <;>
      simp [List.countP_cons, ha, ← ih] <;> omega

theorem remapIdx_eq_rank (flat : List Nat) (n v : Nat) (hv : v < n) :
    remapIdx ((List.range n).filter (fun i => decide (i ∉ flat))) v =
      rankIn flat v := by
  unfold remapIdx rankIn
  rw [countP_lt_free flat n v (le_of_lt hv)]
  have hpart := countP_mem_add_not_mem (List.range v) flat
  rw [List.length_range] at hpart
  omega

theorem rank_succ (flat : List Nat) (v : Nat) :
    rankIn flat (v + 1) = rankIn flat v + (if v ∈ flat then 1 else 0) := by
  unfold rankIn
  rw [List.range_succ, List.countP_append]
  by_cases h : v ∈ flat <;> simp [List.countP_cons, h]

theorem rank_mono (flat : List Nat) (a b : Nat) (h : a ≤ b) :
    rankIn flat a ≤ rankIn flat b := by
  induction b with
  | zero =>
    have h0 : a = 0 := by omega
    subst h0
    exact le_refl _
  | succ m ih =>
    rcases Nat.lt_or_ge a (m + 1) with h1 | h2
    · have := ih (by omega)
      rw [rank_succ]
      split <;> omega
    · have h3 : a = m + 1 := by omega
      subst h3
      exact le_refl _

theorem rank_lt (flat : List Nat) (v w : Nat) (hv : v ∈ flat) (hvw : v < w) :
    rankIn flat v < rankIn flat w := by
  have h1 : rankIn flat (v + 1) = rankIn flat v + 1 := by
    rw [rank_succ, if_pos hv]
  have h2 : rankIn flat (v + 1) ≤ rankIn flat w := rank_mono flat _ _ (by omega)
  omega

theorem rank_surj (flat : List Nat) (n : Nat) :
    ∀ j < rankIn flat n, ∃ v, v < n ∧ v ∈ flat ∧ rankIn flat v = j := by
  induction n with
  | zero =>
    intro j hj
    simp [rankIn] at hj
  | succ m ih =>
    intro j hj
    rw [rank_succ] at hj
    by_cases hm : m ∈ flat
    · rw [if_pos hm] at hj
      rcases Nat.lt_or_ge j (rankIn flat m) with h1 | h2
      · obtain ⟨v, hv⟩ := ih j h1
        exact ⟨v, by omega, hv.2⟩
      · have he : rankIn flat m = j := by omega
        exact ⟨m, by omega, hm, he⟩
    · rw [if_neg hm, add_zero] at hj
      obtain ⟨v, hv⟩ := ih j hj
      exact ⟨v, by omega, hv.2⟩

theorem removeIdxs_length (l : List α) (free : List Nat) :
    (removeIdxs l free).length =
      ((List.range l.length).filter (fun i => decide (i ∉ free))).length := by
  unfold removeIdxs
  rw [List.length_map]
  have hmf : (l.enum.filter (fun p => decide (p.1 ∉ free))).map Prod.fst =
      (l.enum.map Prod.fst).filter (fun i => decide (i ∉ free)) := by
    rw [List.filter_map]
    rfl
  calc (l.enum.filter (fun p => decide (p.1 ∉ free))).length
      = ((l.enum.filter (fun p => decide (p.1 ∉ free))).map Prod.fst).length :=
        (List.length_map _ _).symm
    _ = ((l.enum.map Prod.fst).filter (fun i => decide (i ∉ free))).length :=
        by rw [hmf]
    _ = ((List.range l.length).filter (fun i => decide (i ∉ free))).length :=
        by rw [List.enum_map_fst]

theorem countP_congr_mem (l : List α) (p q : α → Bool)
    (h : ∀ a ∈ l, p a = q a) : l.countP p = l.countP q := by
  induction l with
  | nil => rfl
  | cons a t ih =>
    rw [List.countP_cons, List.countP_cons, h a (List.mem_cons_self _ _),
      ih (fun b hb => h b (List.mem_cons_of_mem _ hb))]

theorem keep_eq_rank (flat : List Nat) (n : Nat) :
    ((List.range n).filter (fun i =>
        decide (i ∉ (List.range n).filter (fun j => decide (j ∉ flat))))).length
      = rankIn flat n := by
  unfold rankIn
  rw [← List.countP_eq_length_filter]
  apply countP_congr_mem
  intro a ha
  simp only [List.mem_range] at ha
  have hiff : (a ∉ (List.range n).filter (fun j => decide (j ∉ flat)))
      ↔ a ∈ flat := by
    rw [List.mem_filter]
    simp [List.mem_range, ha, not_not]
  exact decide_eq_decide.mpr hiff

/-- The flattened connectivity (`np.concatenate(...).flatten()`). -/
def flatConn (r : RawMesh) : List Nat :=
  (r.cellBlocks.map (fun b => b.conn.flatten)).flatten

theorem mem_flatConn (r : RawMesh) (v : Nat) :
    v ∈ flatConn r ↔ ∃ b ∈ r.cellBlocks, ∃ c ∈ b.conn, v ∈ c := by
  unfold flatConn
  simp [List.mem_flatten, List.mem_map]

/-- Behaviour of `remove_free_points`: afterwards the connectivity indices
are valid, every surviving point is referenced, and the rebuilt
`pointsID` values are the dense range. -/
theorem remove_free_points_spec (r : RawMesh) (ids : List Int)
    (hconn : ∀ b ∈ r.cellBlocks, ∀ c ∈ b.conn, ∀ v ∈ c, v < r.points.length)
    (hpid : r.pointsID = ids.zip (List.range ids.length))
    (hlen : ids.length = r.points.length) :
    (∀ b ∈ (remove_free_points r).cellBlocks, ∀ c ∈ b.conn, ∀ v ∈ c,
        v < (remove_free_points r).points.length)
    ∧ (∀ j < (remove_free_points r).points.length,
        ∃ b ∈ (remove_free_points r).cellBlocks, ∃ c ∈ b.conn, j ∈ c)
    ∧ (remove_free_points r).pointsID.map (fun p => p.2) =
        List.range (remove_free_points r).points.length := by
  have hflat : ∀ v ∈ flatConn r, v < r.points.length := by
    intro v hv
    obtain ⟨b, hb, c, hc, hvc⟩ := (mem_flatConn r v).mp hv
    exact hconn b hb c hc v hvc
  have hrfp : remove_free_points r =
      if ((List.range r.points.length).filter
            (fun i => decide (i ∉ flatConn r))).isEmpty then r
      else
        { pointsID :=
            (removeIdxs (r.pointsID.map (fun p => p.1))
              ((List.range r.points.length).filter
                (fun i => decide (i ∉ flatConn r)))).zip
              (List.range (removeIdxs (r.pointsID.map (fun p => p.1))
                ((List.range r.points.length).filter
                  (fun i => decide (i ∉ flatConn r)))).length)
          points := removeIdxs r.points
            ((List.range r.points.length).filter
              (fun i => decide (i ∉ flatConn r)))
          cellBlocks := r.cellBlocks.map (fun b =>
            { b with conn := b.conn.map (fun c => c.map
                (remapIdx ((List.range r.points.length).filter
                  (fun i => decide (i ∉ flatConn r))))) })
          point_data := r.point_data.map (fun p => (p.1, removeIdxs p.2
            ((List.range r.points.length).filter
              (fun i => decide (i ∉ flatConn r)))))
          cell_data := r.cell_data } := rfl
  by_cases hfree : ((List.range r.points.length).filter
      (fun i => decide (i ∉ flatConn r))).isEmpty
  · rw [hrfp, if_pos hfree]
    have hall : ∀ i < r.points.length, i ∈ flatConn r := by
      intro i hi
      have hnil := List.isEmpty_iff.mp hfree
      by_contra hnot
      have : i ∈ (List.range r.points.length).filter
          (fun j => decide (j ∉ flatConn r)) :=
        List.mem_filter.mpr ⟨List.mem_range.mpr hi, by simpa using hnot⟩
      rw [hnil] at this
      cases this
    refine ⟨hconn, ?_, ?_⟩
    · intro j hj
      exact (mem_flatConn r j).mp (hall j hj)
    · rw [hpid, zip_map_snd _ _ (by simp), hlen]
  · rw [hrfp, if_neg hfree]
    simp only
    have hplen : (removeIdxs r.points ((List.range r.points.length).filter
        (fun i => decide (i ∉ flatConn r)))).length =
        rankIn (flatConn r) r.points.length := by
      rw [removeIdxs_length, keep_eq_rank]
    have hklen : (removeIdxs (r.pointsID.map (fun p => p.1))
        ((List.range r.points.length).filter
          (fun i => decide (i ∉ flatConn r)))).length =
        rankIn (flatConn r) r.points.length := by
      rw [removeIdxs_length]
      have hfst : (r.pointsID.map (fun p => p.1)).length = r.points.length := by
        rw [hpid]
        simp [List.length_zip, hlen]
      rw [hfst, keep_eq_rank]
    refine ⟨?_, ?_, ?_⟩
    · intro b' hb' c' hc' v' hv'
      obtain ⟨b, hb, rfl⟩ := List.mem_map.mp hb'
      simp only at hc'
      obtain ⟨c, hc, rfl⟩ := List.mem_map.mp hc'
      obtain ⟨v, hv, rfl⟩ := List.mem_map.mp hv'
      have hvf : v ∈ flatConn r := (mem_flatConn r v).mpr ⟨b, hb, c, hc, hv⟩
      have hvn : v < r.points.length := hflat v hvf
      rw [hplen, remapIdx_eq_rank (flatConn r) r.points.length v hvn]
      exact rank_lt (flatConn r) v r.points.length hvf hvn
    · intro j hj
      rw [hplen] at hj
      obtain ⟨v, hvn, hvf, hvr⟩ := rank_surj (flatConn r) r.points.length j hj
      obtain ⟨b, hb, c, hc, hvc⟩ := (mem_flatConn r v).mp hvf
      refine ⟨{ b with conn := b.conn.map (fun c => c.map
          (remapIdx ((List.range r.points.length).filter
            (fun i => decide (i ∉ flatConn r))))) },
        List.mem_map_of_mem _ hb,
        c.map (remapIdx ((List.range r.points.length).filter
          (fun i => decide (i ∉ flatConn r)))),
        List.mem_map_of_mem _ hc, ?_⟩
      have : remapIdx ((List.range r.points.length).filter
          (fun i => decide (i ∉ flatConn r))) v = j := by
        rw [remapIdx_eq_rank (flatConn r) r.points.length v hvn, hvr]
      rw [← this]
      exact List.mem_map_of_mem _ hvc
    · rw [zip_map_snd _ _ (by simp), hklen, hplen]

/-- C1: every mesh built by `PatranMesh` from valid input (records read
successfully, distinct external point ids) satisfies the invariants:
every cell vertex index is a valid index into `points`, every point row
is referenced by at least one retained cell, and the internal point ids
stored in `pointsID` form the dense range `[0, n)`. -/
theorem patran_mesh_invariants (recs : List PatRecord) (kinds : List String)
    (raw : RawMesh) (m : Mesh)
    (hread : patranRead recs kinds = .ok raw)
    (hnodup : (pointIds recs).Nodup)
    (hinit : init_mesh raw = .ok m) : meshInvariants m := by
  have hfields : m.toRawMesh = remove_free_points raw := by
    rw [init_mesh] at hinit
    cases hbl : raw.cellBlocks with
    | nil => rw [hbl] at hinit; cases hinit
    | cons b bs =>
      rw [hbl] at hinit
      simp only [Except.ok.injEq] at hinit
      rw [← hinit]
  have hconn := patranRead_conn_lt recs kinds raw hread
  obtain ⟨hpid, hlen⟩ := patranRead_pid recs kinds raw hread hnodup
  have hspec := remove_free_points_spec raw (pointIds recs) hconn hpid hlen.symm
  have hcb : m.cellBlocks = (remove_free_points raw).cellBlocks :=
    congrArg RawMesh.cellBlocks hfields
  have hpt : m.points = (remove_free_points raw).points :=
    congrArg RawMesh.points hfields
  have hpi : m.pointsID = (remove_free_points raw).pointsID :=
    congrArg RawMesh.pointsID hfields
  unfold meshInvariants
  rw [hcb, hpt, hpi]
  exact hspec

/-- The records of a mesh with one triangle and one free point. -/
def recs1c : List PatRecord :=
  [.point 10 (1, 0, 0), .point 20 (0, 1, 0), .point 30 (0, 0, 1),
   .point 40 (2, 2, 2), .cell 100 3 3 [10, 20, 30], .garbage]

/-- The raw mesh read from `recs1c` (before free-point removal). -/
def raw1c : RawMesh :=
  ⟨[(10, 0), (20, 1), (30, 2), (40, 3)],
   [(1, 0, 0), (0, 1, 0), (0, 0, 1), (2, 2, 2)],
   [⟨"triangle", [100], [[0, 1, 2]]⟩], [], []⟩

/-- The mesh `init_mesh` builds from `raw1c` (free point 3 removed). -/
def mesh1c : Mesh :=
  ⟨⟨[(10, 0), (20, 1), (30, 2)],
    [(1, 0, 0), (0, 1, 0), (0, 0, 1)],
    [⟨"triangle", [100], [[0, 1, 2]]⟩], [], []⟩, 1, 3⟩

/-- Witness for C1 on a concrete mesh containing a free point. -/
theorem patran_mesh_invariants_witness :
    patranRead recs1c ["triangle", "tetra"] = .ok raw1c
    ∧ (pointIds recs1c).Nodup
    ∧ init_mesh raw1c = .ok mesh1c
    ∧ meshInvariants mesh1c :=
  ⟨rfl, by decide, rfl,
   patran_mesh_invariants recs1c ["triangle", "tetra"] raw1c mesh1c rfl
     (by decide) rfl⟩
